import Mathlib

/-!
Shallow embedding of `src/Inspectable.h` (xoorath/xo-inspectable).

Modelling conventions:
- `InspectableTransformation<T>` becomes a structure holding the priority (`int` modelled
  as `Int`; only compared, never overflowed), the enabled flag, and the
  `std::function<void(T&)>` target modelled as `Option (T → T)` (`none` = empty
  `std::function`, i.e. no target bound).  The in-place mutation `void(T&)` is modelled
  as a pure value transformer `T → T`.
- `InspectableTransformation<T>*` pointers are modelled as `Nat` addresses; a heap
  `SlotHeap T : Nat → InspectableTransformation T` gives the slot stored at each address,
  so reference identity (what `std::find` compares) is address equality.  A possibly-null
  pointer argument is `Option Nat` (`none` = `nullptr`).
- `Inspectable<T>` becomes a record of its five data members; the listener lists
  `m_ValueChanged` / `m_IdentityChanged` hold listener addresses.  Listener invocation is
  modelled as an emitted `Event` (which listener was called, with which `lastValue` /
  `newValue` arguments, and from which of the two listener lists), in invocation order.
- `std::sort` (used by `SortTransformations`) guarantees only that the result is a
  permutation of the input ordered so that no later element satisfies the comparator
  against an earlier one; the relative order of equivalent elements is unspecified.
  That contract is `IsStdSortResult`.  The executable model uses `List.insertionSort`
  with the reflexive (non-strict) ordering, one outcome permitted by the contract
  (`sortTransformations_meets_contract`); tie-ordering claims are settled against the
  contract itself, not against the executable choice.
-/

/-- InspectableTransformation<T> (src/Inspectable.h, lines 72-107): priority,
enabled flag, and the stored `std::function<void(T&)>` target. -/
structure InspectableTransformation (T : Type) where
  m_Priority : Int
  m_Enabled : Bool
  m_Function : Option (T → T)

variable {T : Type} {E : Type}

/-- InspectableTransformation<T>::IsEnabled (src 337-340). -/
def InspectableTransformation.IsEnabled (t : InspectableTransformation T) : Bool :=
  t.m_Enabled

/-- InspectableTransformation<T>::GetPriority (src 342-345). -/
def InspectableTransformation.GetPriority (t : InspectableTransformation T) : Int :=
  t.m_Priority

/-- InspectableTransformation<T>::GetTransformFunc (src 352-355). -/
def InspectableTransformation.GetTransformFunc (t : InspectableTransformation T) :
    Option (T → T) :=
  t.m_Function

/-- Outcome of calling a `std::function` whose target may itself raise an error of
type `E`: an empty `std::function` throws `std::bad_function_call`; an error raised
by the target is passed through to the caller. -/
inductive CppCallError (E : Type) : Type where
  | badFunctionCall : CppCallError E
  | raised : E → CppCallError E
deriving DecidableEq

/-- InspectableTransformation<T>::operator() (src 347-350): the body is exactly
`m_Function(input);` with no guard.  Here the stored target is allowed to raise an
error of type `E` (modelled as `T → Except E T`) so that propagation is expressible;
calling with no target bound is `std::function`'s `bad_function_call`. -/
def transformationCallOperator (m_Function : Option (T → Except E T)) (input : T) :
    Except (CppCallError E) T :=
  match m_Function with
  | none => Except.error CppCallError.badFunctionCall
  | some f =>
    match f input with
    | Except.ok v => Except.ok v
    | Except.error e => Except.error (CppCallError.raised e)

/-- Heap of transformation slots: the slot object stored at each address. -/
abbrev SlotHeap (T : Type) := Nat → InspectableTransformation T

/-- Inspectable<T> data members (src 182-186).  The two listener lists hold
listener addresses (`TValueChangedFunc*`). -/
structure Inspectable (T : Type) where
  m_Identity : T
  m_LastValue : T
  m_Transformations : List Nat
  m_IdentityChanged : List Nat
  m_ValueChanged : List Nat
deriving DecidableEq

/-- Which listener list an invocation came from. -/
inductive EventKind : Type where
  | valueChanged : EventKind
  | identityChanged : EventKind
deriving DecidableEq

/-- One listener invocation `(*func)(this, lastValue, newValue)`, recorded as data. -/
structure Event (T : Type) where
  kind : EventKind
  listener : Nat
  lastValue : T
  newValue : T
deriving DecidableEq

/-- Inspectable<T>::Inspectable(T identity) (src 363-365): both `m_Identity` and
`m_LastValue` start at `identity`; all lists start empty. -/
def Inspectable.ofIdentity (identity : T) : Inspectable T :=
  { m_Identity := identity
    m_LastValue := identity
    m_Transformations := []
    m_IdentityChanged := []
    m_ValueChanged := [] }

/-- One iteration of the ForceUpdate loop body (src 502-506):
`if(transform->IsEnabled() && (*transform).GetTransformFunc()) (*transform)(value);`. -/
def transformStep (heap : SlotHeap T) (value : T) (p : Nat) : T :=
  if (heap p).IsEnabled && ((heap p).GetTransformFunc).isSome then
    ((heap p).GetTransformFunc).getD id value
  else
    value

/-- The working value computed by the ForceUpdate loop: start from a copy of
`m_Identity` and run the loop body over `m_Transformations` in list order. -/
def recomputeValue (heap : SlotHeap T) (s : Inspectable T) : T :=
  s.m_Transformations.foldl (transformStep heap) s.m_Identity

/-- Inspectable<T>::ForceUpdate (src 495-515): compute the working value, store it in
`m_LastValue`, and if it differs from the previous `m_LastValue` invoke every
value-changed listener with `(this, lastValue, value)` in list order. -/
def Inspectable.ForceUpdate [DecidableEq T] (heap : SlotHeap T) (s : Inspectable T) :
    Inspectable T × List (Event T) :=
  let value := recomputeValue heap s
  let lastValue := s.m_LastValue
  let s₁ : Inspectable T := { s with m_LastValue := value }
  if lastValue ≠ value then
    (s₁, s₁.m_ValueChanged.map (fun q => Event.mk EventKind.valueChanged q lastValue value))
  else
    (s₁, [])

/-- Spec-side recompute, from the spec's words (§4.2 forceRecompute steps 1-2): apply,
in slot order, exactly those slots that are enabled and have a bound function. -/
def specRecompute (heap : SlotHeap T) (slots : List Nat) (identity : T) : T :=
  (slots.filter (fun p => (heap p).m_Enabled && (heap p).m_Function.isSome)).foldl
    (fun v p => ((heap p).m_Function).getD id v) identity

theorem foldl_transformStep_eq_filter (heap : SlotHeap T) (slots : List Nat) (v : T) :
    slots.foldl (transformStep heap) v
      = (slots.filter (fun p => (heap p).m_Enabled && (heap p).m_Function.isSome)).foldl
          (fun w p => ((heap p).m_Function).getD id w) v := by
  induction slots generalizing v with
  | nil => rfl
  | cons a rest ih =>
    by_cases h : ((heap a).m_Enabled && (heap a).m_Function.isSome) = true
    · simp only [List.foldl_cons, List.filter_cons, h, if_pos, transformStep,
        InspectableTransformation.IsEnabled, InspectableTransformation.GetTransformFunc]
      rw [ih]
    · simp only [List.foldl_cons, List.filter_cons, h, if_neg, transformStep,
        InspectableTransformation.IsEnabled, InspectableTransformation.GetTransformFunc]
      simp only [Bool.not_eq_true] at h
      simp only [h, if_neg, Bool.false_eq_true, not_false_iff]
      rw [ih]

theorem recomputeValue_eq_spec (heap : SlotHeap T) (s : Inspectable T) :
    recomputeValue heap s = specRecompute heap s.m_Transformations s.m_Identity := by
  unfold recomputeValue specRecompute
  exact foldl_transformStep_eq_filter heap s.m_Transformations s.m_Identity

theorem forceUpdate_fst [DecidableEq T] (heap : SlotHeap T) (s : Inspectable T) :
    (Inspectable.ForceUpdate heap s).1 = { s with m_LastValue := recomputeValue heap s } := by
  unfold Inspectable.ForceUpdate
  by_cases h : s.m_LastValue = recomputeValue heap s
  · simp [h]
  · simp [h]

theorem forceUpdate_snd [DecidableEq T] (heap : SlotHeap T) (s : Inspectable T) :
    (Inspectable.ForceUpdate heap s).2 =
      if s.m_LastValue = recomputeValue heap s then []
      else s.m_ValueChanged.map
        (fun q => Event.mk EventKind.valueChanged q s.m_LastValue (recomputeValue heap s)) := by
  unfold Inspectable.ForceUpdate
  by_cases h : s.m_LastValue = recomputeValue heap s
  · simp [h]
  · simp [h]

/-- C1: ForceUpdate copies the identity into a working value, applies, in the cell's
slot order, exactly the registered slots that are enabled and have a bound function,
stores the result as the cached value, and invokes every value-changed listener with
`(this, previousCachedValue, newCachedValue)` in registration order if and only if the
new cached value differs from the previous one. -/
theorem forceUpdate_spec [DecidableEq T] (heap : SlotHeap T) (s : Inspectable T) :
    (Inspectable.ForceUpdate heap s).1.m_LastValue
        = specRecompute heap s.m_Transformations s.m_Identity
    ∧ (Inspectable.ForceUpdate heap s).2
        = (if s.m_LastValue = specRecompute heap s.m_Transformations s.m_Identity then []
           else s.m_ValueChanged.map (fun q => Event.mk EventKind.valueChanged q s.m_LastValue
             (specRecompute heap s.m_Transformations s.m_Identity))) := by
  constructor
  · rw [forceUpdate_fst]
    exact recomputeValue_eq_spec heap s
  · rw [forceUpdate_snd, recomputeValue_eq_spec]

/-- xoins::internal::TransformationPredicate (src 538-543): the strict comparator
handed to `std::sort` — `a->GetPriority() > b->GetPriority()`. -/
def xoins.internal.TransformationPredicate (heap : SlotHeap T) (a b : Nat) : Prop :=
  (heap a).GetPriority > (heap b).GetPriority

instance (heap : SlotHeap T) : DecidableRel (xoins.internal.TransformationPredicate heap) :=
  fun a b => inferInstanceAs (Decidable ((heap a).GetPriority > (heap b).GetPriority))

/-- Postcondition of `std::sort(first, last, comp)`: the output is a permutation of the
input in which no element compares `comp`-before an element placed earlier.  The relative
order of equivalent elements is not specified. -/
def IsStdSortResult (comp : Nat → Nat → Prop) (input output : List Nat) : Prop :=
  List.Perm input output ∧ List.Pairwise (fun a b => ¬ comp b a) output

/-- Non-strict priority order: `a` may precede `b` (descending priorities). -/
def prioGE (heap : SlotHeap T) (a b : Nat) : Prop :=
  (heap b).GetPriority ≤ (heap a).GetPriority

instance (heap : SlotHeap T) : DecidableRel (prioGE heap) :=
  fun a b => inferInstanceAs (Decidable ((heap b).GetPriority ≤ (heap a).GetPriority))

instance (heap : SlotHeap T) : IsTotal Nat (prioGE heap) :=
  ⟨fun a b => (le_total ((heap b).GetPriority) ((heap a).GetPriority)).elim Or.inl Or.inr⟩

instance (heap : SlotHeap T) : IsTrans Nat (prioGE heap) :=
  ⟨fun _ _ _ hab hbc => le_trans hbc hab⟩

/-- Inspectable<T>::SortTransformations (src 545-548): `std::sort` with
`TransformationPredicate`.  The executable model uses insertion sort on the non-strict
order, one outcome the `std::sort` contract permits
(`sortTransformations_meets_contract`). -/
def Inspectable.SortTransformations (heap : SlotHeap T) (l : List Nat) : List Nat :=
  List.insertionSort (prioGE heap) l

theorem sorted_sortTransformations (heap : SlotHeap T) (l : List Nat) :
    List.Sorted (prioGE heap) (Inspectable.SortTransformations heap l) :=
  List.sorted_insertionSort (prioGE heap) l

theorem perm_sortTransformations (heap : SlotHeap T) (l : List Nat) :
    List.Perm (Inspectable.SortTransformations heap l) l :=
  List.perm_insertionSort (prioGE heap) l

theorem sorted_prioGE_imp_contract (heap : SlotHeap T) {l : List Nat}
    (h : List.Sorted (prioGE heap) l) :
    List.Pairwise (fun a b => ¬ xoins.internal.TransformationPredicate heap b a) l :=
  h.imp (fun hab => not_lt.mpr hab)

theorem sortTransformations_meets_contract (heap : SlotHeap T) (l : List Nat) :
    IsStdSortResult (xoins.internal.TransformationPredicate heap) l
      (Inspectable.SortTransformations heap l) :=
  ⟨(perm_sortTransformations heap l).symm,
   sorted_prioGE_imp_contract heap (sorted_sortTransformations heap l)⟩

/-- `std::find(begin, end, p)` over a pointer list: index of the first occurrence of
`p`, or `none` when `p` is absent (iterator equal to `end`). -/
def stdFind : List Nat → Nat → Option Nat
  | [], _ => none
  | a :: rest, p => if a = p then some 0 else (stdFind rest p).map Nat.succ

theorem stdFind_eq_none_iff (l : List Nat) (p : Nat) :
    stdFind l p = none ↔ p ∉ l := by
  induction l with
  | nil => simp [stdFind]
  | cons a rest ih =>
    by_cases h : a = p
    · simp [stdFind, h]
    · simp [stdFind, h, ih, Ne.symm h]

theorem stdFind_eraseIdx (l : List Nat) (p : Nat) :
    ∀ i, stdFind l p = some i → l.eraseIdx i = l.erase p := by
  induction l with
  | nil => intro i h; simp [stdFind] at h
  | cons a rest ih =>
    intro i h
    by_cases hap : a = p
    · subst hap
      simp only [stdFind, if_pos rfl] at h
      injection h with h
      subst h
      simp [List.eraseIdx, List.erase_cons]
    · have hbeq : (a == p) = false := beq_eq_false_iff_ne.mpr hap
      simp only [stdFind, if_neg hap] at h
      cases hfind : stdFind rest p with
      | none => rw [hfind] at h; simp at h
      | some j =>
        rw [hfind] at h
        simp only [Option.map_some'] at h
        injection h with h
        subst h
        simp [List.eraseIdx, List.erase_cons, hbeq, ih j hfind]

/-- Inspectable<T>::AddTransformation(TTransform*, bool) (src 377-387): ignore null,
append, re-sort, optionally ForceUpdate. -/
def Inspectable.AddTransformation [DecidableEq T] (heap : SlotHeap T)
    (transformation : Option Nat) (andUpdate : Bool) (s : Inspectable T) :
    Inspectable T × List (Event T) :=
  match transformation with
  | none => (s, [])
  | some p =>
    let s₁ : Inspectable T :=
      { s with m_Transformations :=
          Inspectable.SortTransformations heap (s.m_Transformations ++ [p]) }
    if andUpdate then Inspectable.ForceUpdate heap s₁ else (s₁, [])

/-- Inspectable<T>::AddTransformationUnique (src 389-402): like AddTransformation, but
a complete no-op (including skipping the update) when `std::find` locates the same
pointer already in the list. -/
def Inspectable.AddTransformationUnique [DecidableEq T] (heap : SlotHeap T)
    (transformation : Option Nat) (andUpdate : Bool) (s : Inspectable T) :
    Inspectable T × List (Event T) :=
  match transformation with
  | none => (s, [])
  | some p =>
    match stdFind s.m_Transformations p with
    | some _ => (s, [])
    | none =>
      let s₁ : Inspectable T :=
        { s with m_Transformations :=
            Inspectable.SortTransformations heap (s.m_Transformations ++ [p]) }
      if andUpdate then Inspectable.ForceUpdate heap s₁ else (s₁, [])

/-- Inspectable<T>::RemoveTransformation (src 404-415): ignore null; erase the iterator
returned by `std::find` when it is not `end`; ForceUpdate only when a removal
happened. -/
def Inspectable.RemoveTransformation [DecidableEq T] (heap : SlotHeap T)
    (transformation : Option Nat) (andUpdate : Bool) (s : Inspectable T) :
    Inspectable T × List (Event T) :=
  match transformation with
  | none => (s, [])
  | some p =>
    match stdFind s.m_Transformations p with
    | none => (s, [])
    | some i =>
      let s₁ : Inspectable T :=
        { s with m_Transformations := s.m_Transformations.eraseIdx i }
      if andUpdate then Inspectable.ForceUpdate heap s₁ else (s₁, [])

/-- Inspectable<T>::SetIdentity (src 517-527): no-op when the new value equals the
current identity; otherwise assign, optionally ForceUpdate (emitting its value-changed
events first), then invoke every identity-changed listener with
`(this, last, m_Identity)` in list order. -/
def Inspectable.SetIdentity [DecidableEq T] (heap : SlotHeap T) (value : T)
    (andUpdate : Bool) (s : Inspectable T) : Inspectable T × List (Event T) :=
  if s.m_Identity ≠ value then
    let last := s.m_Identity
    let s₁ : Inspectable T := { s with m_Identity := value }
    let r := if andUpdate then Inspectable.ForceUpdate heap s₁ else (s₁, [])
    (r.1, r.2 ++ r.1.m_IdentityChanged.map
      (fun q => Event.mk EventKind.identityChanged q last r.1.m_Identity))
  else
    (s, [])

/-- Inspectable<T>::GetValue (src 529-534): optionally ForceUpdate first, then return
`m_LastValue`.  Result: (returned value, resulting state, emitted events). -/
def Inspectable.GetValue [DecidableEq T] (heap : SlotHeap T) (andForceUpdate : Bool)
    (s : Inspectable T) : T × Inspectable T × List (Event T) :=
  if andForceUpdate then
    let r := Inspectable.ForceUpdate heap s
    (r.1.m_LastValue, r.1, r.2)
  else
    (s.m_LastValue, s, [])

theorem forceUpdate_identity [DecidableEq T] (heap : SlotHeap T) (s : Inspectable T) :
    (Inspectable.ForceUpdate heap s).1.m_Identity = s.m_Identity := by
  rw [forceUpdate_fst]

theorem forceUpdate_transformations [DecidableEq T] (heap : SlotHeap T) (s : Inspectable T) :
    (Inspectable.ForceUpdate heap s).1.m_Transformations = s.m_Transformations := by
  rw [forceUpdate_fst]

theorem forceUpdate_identityChanged [DecidableEq T] (heap : SlotHeap T) (s : Inspectable T) :
    (Inspectable.ForceUpdate heap s).1.m_IdentityChanged = s.m_IdentityChanged := by
  rw [forceUpdate_fst]

theorem forceUpdate_valueChanged [DecidableEq T] (heap : SlotHeap T) (s : Inspectable T) :
    (Inspectable.ForceUpdate heap s).1.m_ValueChanged = s.m_ValueChanged := by
  rw [forceUpdate_fst]

/-- C4: SetIdentity with a value equal to the current identity is a complete no-op (no
state change, no recompute, no listener invocation); with an unequal value it assigns
the identity, runs ForceUpdate first when `andUpdate` is true (so its value-changed
events precede the identity events), and then invokes every identity-changed listener
with `(this, previousIdentity, newIdentity)` in registration order. -/
theorem setIdentity_spec [DecidableEq T] (heap : SlotHeap T) (v : T) (u : Bool)
    (s : Inspectable T) :
    Inspectable.SetIdentity heap v u s =
      if s.m_Identity = v then (s, [])
      else
        ((if u then Inspectable.ForceUpdate heap { s with m_Identity := v }
          else ({ s with m_Identity := v }, [])).1,
         (if u then Inspectable.ForceUpdate heap { s with m_Identity := v }
          else ({ s with m_Identity := v }, [])).2
           ++ s.m_IdentityChanged.map
               (fun q => Event.mk EventKind.identityChanged q s.m_Identity v)) := by
  by_cases h : s.m_Identity = v
  · simp [Inspectable.SetIdentity, h]
  · cases u <;>
      simp [Inspectable.SetIdentity, h, forceUpdate_identity, forceUpdate_identityChanged]

/-- C10: with `newValue` unequal to the current identity, `SetIdentity(newValue, false)`
changes only the identity field (the cached value, slot list and both listener lists are
untouched) and emits exactly the identity-changed events; afterwards `GetValue(false)`
returns the (stale) cached value without any state change or event. -/
theorem setIdentity_frame [DecidableEq T] (heap : SlotHeap T) (v : T) (s : Inspectable T)
    (h : v ≠ s.m_Identity) :
    (Inspectable.SetIdentity heap v false s).1 = { s with m_Identity := v }
    ∧ (Inspectable.SetIdentity heap v false s).2
        = s.m_IdentityChanged.map (fun q => Event.mk EventKind.identityChanged q s.m_Identity v)
    ∧ Inspectable.GetValue heap false (Inspectable.SetIdentity heap v false s).1
        = (s.m_LastValue, (Inspectable.SetIdentity heap v false s).1, []) := by
  have h' : s.m_Identity ≠ v := Ne.symm h
  refine ⟨?_, ?_, ?_⟩ <;> simp [Inspectable.SetIdentity, Inspectable.GetValue, h']

/-- Repeated ForceUpdate: `ForceUpdateIter heap s n` is the state after `n` calls. -/
def Inspectable.ForceUpdateIter [DecidableEq T] (heap : SlotHeap T) (s : Inspectable T) :
    Nat → Inspectable T
  | 0 => s
  | n + 1 => (Inspectable.ForceUpdate heap (Inspectable.ForceUpdateIter heap s n)).1

theorem recomputeValue_forceUpdate [DecidableEq T] (heap : SlotHeap T) (s : Inspectable T) :
    recomputeValue heap (Inspectable.ForceUpdate heap s).1 = recomputeValue heap s := by
  rw [forceUpdate_fst]
  rfl

theorem forceUpdate_stable [DecidableEq T] (heap : SlotHeap T) (s : Inspectable T) :
    (Inspectable.ForceUpdate heap (Inspectable.ForceUpdate heap s).1).1
        = (Inspectable.ForceUpdate heap s).1
    ∧ (Inspectable.ForceUpdate heap (Inspectable.ForceUpdate heap s).1).2 = [] := by
  have hl : (Inspectable.ForceUpdate heap s).1.m_LastValue = recomputeValue heap s := by
    rw [forceUpdate_fst]
  constructor
  · rw [forceUpdate_fst (s := (Inspectable.ForceUpdate heap s).1),
      recomputeValue_forceUpdate, forceUpdate_fst]
  · rw [forceUpdate_snd, recomputeValue_forceUpdate, if_pos hl]

theorem forceUpdateIter_eq [DecidableEq T] (heap : SlotHeap T) (s : Inspectable T) (n : Nat) :
    Inspectable.ForceUpdateIter heap s (n + 1) = (Inspectable.ForceUpdate heap s).1 := by
  induction n with
  | zero => rfl
  | succ n ih =>
    show (Inspectable.ForceUpdate heap (Inspectable.ForceUpdateIter heap s (n + 1))).1 = _
    rw [ih]
    exact (forceUpdate_stable heap s).1

/-- C6: with the identity, registered slots, enabled flags and (pure) bound functions
fixed, every call to ForceUpdate after the first produces the identical cached value,
and the second and all subsequent calls invoke no value-changed listener.  (Functions
are pure by construction in this model, `T → T`.) -/
theorem forceUpdate_deterministic_idempotent [DecidableEq T] (heap : SlotHeap T)
    (s : Inspectable T) (n : Nat) :
    (Inspectable.ForceUpdateIter heap s (n + 1)).m_LastValue
        = (Inspectable.ForceUpdate heap s).1.m_LastValue
    ∧ (Inspectable.ForceUpdate heap (Inspectable.ForceUpdateIter heap s (n + 1))).2 = [] := by
  constructor
  · rw [forceUpdateIter_eq]
  · rw [forceUpdateIter_eq]
    exact (forceUpdate_stable heap s).2

/-- C8: RemoveTransformation removes the first reference-equal match (`List.erase`
removes exactly the first occurrence) and recomputes, when `andUpdate` is true, only if
a removal actually occurred; removing a pointer that is not registered returns the state
unchanged with no events and no error. -/
theorem removeTransformation_spec [DecidableEq T] (heap : SlotHeap T) (p : Nat) (u : Bool)
    (s : Inspectable T) :
    Inspectable.RemoveTransformation heap (some p) u s =
      if p ∈ s.m_Transformations then
        if u then
          Inspectable.ForceUpdate heap
            { s with m_Transformations := s.m_Transformations.erase p }
        else ({ s with m_Transformations := s.m_Transformations.erase p }, [])
      else (s, []) := by
  cases hfind : stdFind s.m_Transformations p with
  | none =>
    have hmem : p ∉ s.m_Transformations := (stdFind_eq_none_iff _ _).mp hfind
    simp [Inspectable.RemoveTransformation, hfind, hmem]
  | some i =>
    have hmem : p ∈ s.m_Transformations := by
      by_contra hc
      rw [(stdFind_eq_none_iff _ _).mpr hc] at hfind
      exact Option.noConfusion hfind
    have herase := stdFind_eraseIdx s.m_Transformations p i hfind
    simp [Inspectable.RemoveTransformation, hfind, hmem, herase]

theorem addTransformation_fst_transformations [DecidableEq T] (heap : SlotHeap T) (p : Nat)
    (u : Bool) (s : Inspectable T) :
    ((Inspectable.AddTransformation heap (some p) u s).1).m_Transformations
      = Inspectable.SortTransformations heap (s.m_Transformations ++ [p]) := by
  cases u <;> simp [Inspectable.AddTransformation, forceUpdate_fst]

theorem addTransformationUnique_fst_of_not_found [DecidableEq T] (heap : SlotHeap T)
    (p : Nat) (u : Bool) (s : Inspectable T) (hfind : stdFind s.m_Transformations p = none) :
    ((Inspectable.AddTransformationUnique heap (some p) u s).1).m_Transformations
      = Inspectable.SortTransformations heap (s.m_Transformations ++ [p]) := by
  cases u <;> simp [Inspectable.AddTransformationUnique, hfind, forceUpdate_fst]

theorem addTransformationUnique_of_found [DecidableEq T] (heap : SlotHeap T)
    (p : Nat) (u : Bool) (s : Inspectable T) (i : Nat)
    (hfind : stdFind s.m_Transformations p = some i) :
    Inspectable.AddTransformationUnique heap (some p) u s = (s, []) := by
  simp [Inspectable.AddTransformationUnique, hfind]

theorem stdFind_isSome_of_mem (l : List Nat) (p : Nat) (h : p ∈ l) :
    ∃ i, stdFind l p = some i := by
  cases hf : stdFind l p with
  | none => exact absurd ((stdFind_eq_none_iff l p).mp hf) (not_not_intro h)
  | some i => exact ⟨i, rfl⟩

/-- C7: with `p` not yet registered, a first AddTransformationUnique registers it
exactly once (`count = 1`), and a second AddTransformationUnique with the same pointer
is a complete no-op — the state is unchanged and no events are emitted, even when its
`andUpdate` argument is true — so any later recompute is unaffected by the duplicate
call. -/
theorem addTransformationUnique_idempotent [DecidableEq T] (heap : SlotHeap T) (p : Nat)
    (u₁ u₂ : Bool) (s : Inspectable T) (h : p ∉ s.m_Transformations) :
    Inspectable.AddTransformationUnique heap (some p) u₂
        (Inspectable.AddTransformationUnique heap (some p) u₁ s).1
      = ((Inspectable.AddTransformationUnique heap (some p) u₁ s).1, [])
    ∧ (((Inspectable.AddTransformationUnique heap (some p) u₁ s).1).m_Transformations).count p
        = 1 := by
  have hfind : stdFind s.m_Transformations p = none := (stdFind_eq_none_iff _ _).mpr h
  have hlist := addTransformationUnique_fst_of_not_found heap p u₁ s hfind
  have hperm := perm_sortTransformations heap (s.m_Transformations ++ [p])
  have hmem : p ∈ ((Inspectable.AddTransformationUnique heap (some p) u₁ s).1).m_Transformations := by
    rw [hlist]
    exact hperm.mem_iff.mpr (List.mem_append_right _ (List.mem_singleton_self p))
  constructor
  · obtain ⟨i, hi⟩ := stdFind_isSome_of_mem _ p hmem
    exact addTransformationUnique_of_found heap p u₂ _ i hi
  · rw [hlist, hperm.count_eq]
    rw [List.count_append, List.count_eq_zero_of_not_mem h]
    simp

/-- A heap in which every address holds an enabled, unbound slot of priority 0 (used
for concrete witnesses and the equal-priority counterexample). -/
def constHeap : SlotHeap Int :=
  fun _ => { m_Priority := 0, m_Enabled := true, m_Function := none }

/-- C7 witness at a concrete input: pointer 5 is absent from a fresh cell, the second
unique add is a no-op and the pointer is registered exactly once. -/
theorem addTransformationUnique_idempotent_witness :
    (5 : Nat) ∉ (Inspectable.ofIdentity (0 : Int)).m_Transformations
    ∧ (Inspectable.AddTransformationUnique constHeap (some 5) true
          (Inspectable.AddTransformationUnique constHeap (some 5) true
            (Inspectable.ofIdentity (0 : Int))).1
        = ((Inspectable.AddTransformationUnique constHeap (some 5) true
            (Inspectable.ofIdentity (0 : Int))).1, [])
      ∧ (((Inspectable.AddTransformationUnique constHeap (some 5) true
            (Inspectable.ofIdentity (0 : Int))).1).m_Transformations).count 5 = 1) :=
  ⟨by decide,
   addTransformationUnique_idempotent constHeap 5 true true
     (Inspectable.ofIdentity (0 : Int)) (by decide)⟩

/-- C10 witness at a concrete input: setting identity 1 on a fresh cell with identity 0
changes only the identity, emits no events (no listeners registered), and GetValue
without update returns the stale cache. -/
theorem setIdentity_frame_witness :
    (1 : Int) ≠ (Inspectable.ofIdentity (0 : Int)).m_Identity
    ∧ ((Inspectable.SetIdentity constHeap 1 false (Inspectable.ofIdentity (0 : Int))).1
          = { Inspectable.ofIdentity (0 : Int) with m_Identity := 1 }
      ∧ (Inspectable.SetIdentity constHeap 1 false (Inspectable.ofIdentity (0 : Int))).2
          = (Inspectable.ofIdentity (0 : Int)).m_IdentityChanged.map
              (fun q => Event.mk EventKind.identityChanged q
                (Inspectable.ofIdentity (0 : Int)).m_Identity 1)
      ∧ Inspectable.GetValue constHeap false
            (Inspectable.SetIdentity constHeap 1 false (Inspectable.ofIdentity (0 : Int))).1
          = ((Inspectable.ofIdentity (0 : Int)).m_LastValue,
             (Inspectable.SetIdentity constHeap 1 false (Inspectable.ofIdentity (0 : Int))).1,
             [])) :=
  ⟨by decide,
   setIdentity_frame constHeap 1 (Inspectable.ofIdentity (0 : Int)) (by decide)⟩

/-- Slot ordering prescribed by the spec (§4.2 ordering rule): strictly descending
priority with equal priorities kept in insertion order — i.e. the stable
descending-priority sort of the registration list, which is exactly
`List.insertionSort` over the non-strict priority order. -/
def specSlotOrder (heap : SlotHeap T) (l : List Nat) : List Nat :=
  List.insertionSort (prioGE heap) l

/-- C2 counterexample: with two equal-priority slots registered in order [1, 2], the
`std::sort` contract used by SortTransformations admits the output [2, 1] — a
permutation with no strict-priority inversion, but with the later-registered slot
first — while the spec's stable tie-break demands [1, 2].  So the code does not
guarantee the claimed tie order (`std::sort` is not stable). -/
theorem stdSort_contract_allows_tie_reorder :
    IsStdSortResult (xoins.internal.TransformationPredicate constHeap) [1, 2] [2, 1]
    ∧ specSlotOrder constHeap [1, 2] = [1, 2]
    ∧ (([2, 1] : List Nat) == specSlotOrder constHeap [1, 2]) = false := by
  refine ⟨⟨List.Perm.swap 2 1 [], ?_⟩, by decide, by decide⟩
  refine List.Pairwise.cons ?_ (List.pairwise_singleton _ _)
  intro b hb
  simp only [List.mem_singleton] at hb
  subst hb
  simp [xoins.internal.TransformationPredicate, InspectableTransformation.GetPriority,
    constHeap]

/-- C2 (amended): after AddTransformation, AddTransformationUnique or
RemoveTransformation (given the invariant held before, which removal and the
already-present unique-add case need), the slot list is ordered by weakly descending
priority — no slot precedes a strictly higher-priority slot — and AddTransformation's
list holds exactly the old slots plus the new pointer.  The relative order of
equal-priority slots is left unspecified by `std::sort`, so the stable-tie part of the
original claim is dropped. -/
theorem slotList_sorted_after_ops [DecidableEq T] (heap : SlotHeap T) (p : Nat) (u : Bool)
    (s : Inspectable T) (hs : List.Sorted (prioGE heap) s.m_Transformations) :
    List.Sorted (prioGE heap)
        ((Inspectable.AddTransformation heap (some p) u s).1).m_Transformations
    ∧ List.Perm ((Inspectable.AddTransformation heap (some p) u s).1).m_Transformations
        (s.m_Transformations ++ [p])
    ∧ List.Sorted (prioGE heap)
        ((Inspectable.AddTransformationUnique heap (some p) u s).1).m_Transformations
    ∧ List.Sorted (prioGE heap)
        ((Inspectable.RemoveTransformation heap (some p) u s).1).m_Transformations := by
  refine ⟨?_, ?_, ?_, ?_⟩
  · rw [addTransformation_fst_transformations]
    exact sorted_sortTransformations heap _
  · rw [addTransformation_fst_transformations]
    exact perm_sortTransformations heap _
  · cases hfind : stdFind s.m_Transformations p with
    | none =>
      rw [addTransformationUnique_fst_of_not_found heap p u s hfind]
      exact sorted_sortTransformations heap _
    | some i =>
      rw [addTransformationUnique_of_found heap p u s i hfind]
      exact hs
  · cases hfind : stdFind s.m_Transformations p with
    | none =>
      simp only [Inspectable.RemoveTransformation, hfind]
      exact hs
    | some i =>
      have hlist : ((Inspectable.RemoveTransformation heap (some p) u s).1).m_Transformations
          = s.m_Transformations.eraseIdx i := by
        cases u <;> simp [Inspectable.RemoveTransformation, hfind, forceUpdate_fst]
      rw [hlist]
      exact List.Pairwise.sublist (List.eraseIdx_sublist s.m_Transformations i) hs

/-- C2 amended-claim witness at a concrete input: the empty slot list of a fresh cell
is sorted, and the three operations at pointer 7 preserve sortedness (with the add
producing a permutation of the appended list). -/
theorem slotList_sorted_after_ops_witness :
    List.Sorted (prioGE constHeap) (Inspectable.ofIdentity (0 : Int)).m_Transformations
    ∧ (List.Sorted (prioGE constHeap)
          ((Inspectable.AddTransformation constHeap (some 7) true
            (Inspectable.ofIdentity (0 : Int))).1).m_Transformations
      ∧ List.Perm ((Inspectable.AddTransformation constHeap (some 7) true
            (Inspectable.ofIdentity (0 : Int))).1).m_Transformations
          ((Inspectable.ofIdentity (0 : Int)).m_Transformations ++ [7])
      ∧ List.Sorted (prioGE constHeap)
          ((Inspectable.AddTransformationUnique constHeap (some 7) true
            (Inspectable.ofIdentity (0 : Int))).1).m_Transformations
      ∧ List.Sorted (prioGE constHeap)
          ((Inspectable.RemoveTransformation constHeap (some 7) true
            (Inspectable.ofIdentity (0 : Int))).1).m_Transformations) :=
  ⟨List.sorted_nil,
   slotList_sorted_after_ops constHeap 7 true (Inspectable.ofIdentity (0 : Int))
     List.sorted_nil⟩

/-- True exactly when a call outcome completed without raising. -/
def callSucceeded : Except (CppCallError E) T → Bool
  | Except.ok _ => true
  | Except.error _ => false

/-- C3 counterexample: invoking the call operator of a slot with no bound function is
not a no-op — it raises `bad_function_call` (the body is an unguarded
`m_Function(input)`), rather than returning the value unchanged with no error. -/
theorem callOperator_unbound_raises :
    transformationCallOperator (none : Option (Int → Except Unit Int)) 0
        = Except.error CppCallError.badFunctionCall
    ∧ callSucceeded (transformationCallOperator (none : Option (Int → Except Unit Int)) 0)
        = false :=
  ⟨rfl, rfl⟩

/-- C3 (amended): the slot's call operator invokes `m_Function` unconditionally: with
no function bound it raises `std::bad_function_call` (it is ForceUpdate's guard, not
the call operator, that skips unbound slots); with a function bound, the function is
invoked on the value and both its result and any error it raises pass through to the
caller unchanged. -/
theorem callOperator_amended (f : T → Except E T) (v : T) :
    transformationCallOperator (none : Option (T → Except E T)) v
        = Except.error CppCallError.badFunctionCall
    ∧ transformationCallOperator (some f) v = Except.mapError CppCallError.raised (f v) := by
  refine ⟨rfl, ?_⟩
  cases hfv : f v with
  | ok w => simp [transformationCallOperator, Except.mapError, hfv]
  | error e => simp [transformationCallOperator, Except.mapError, hfv]

/-- Heap for the spec's Example A: slot 1 has priority 0 and multiplies by 2; slot 2
has priority 1 and adds 2; every other address holds an unbound slot. -/
def exampleHeap : SlotHeap Int := fun p =>
  if p = 1 then { m_Priority := 0, m_Enabled := true, m_Function := some (fun v => v * 2) }
  else if p = 2 then { m_Priority := 1, m_Enabled := true, m_Function := some (fun v => v + 2) }
  else { m_Priority := 0, m_Enabled := true, m_Function := none }

/-- C9: starting from identity 10, adding slot 1 (priority 0, ×2) with immediate update
caches 20; then adding slot 2 (priority 1, +2) with immediate update caches
(10 + 2) × 2 = 24 — slot 2 is applied before slot 1 because its priority is higher. -/
theorem example_priority_ordering :
    ((Inspectable.AddTransformation exampleHeap (some 1) true
        (Inspectable.ofIdentity (10 : Int))).1).m_LastValue = 20
    ∧ ((Inspectable.AddTransformation exampleHeap (some 2) true
        ((Inspectable.AddTransformation exampleHeap (some 1) true
          (Inspectable.ofIdentity (10 : Int))).1)).1).m_LastValue = 24 := by
  constructor <;> rfl
